import Mathlib

/-!
Verification of the expense text-to-CSV parser (src/main.py).

The parser is shallowly embedded over `List Char`.  Python floats are
idealized as exact rationals (`ℚ`) with two-decimal rounding modeled as
round-half-to-even, matching the builtin `round(x, 2)`.  Python string
operations (`strip`, `lower`, `splitlines`) and the three regular
expressions of the source are embedded as executable functions over
character lists; `\w` and `\d` are modeled over ASCII.  The
`ZeroDivisionError` that the split path can raise is made explicit by
returning `Except Unit`.
-/

namespace ExpenseCsv

/-- ASCII lowercasing of one character, as Python `str.lower` acts on ASCII. -/
def pyLowerChar (c : Char) : Char :=
  match c with
  | 'A' => 'a' | 'B' => 'b' | 'C' => 'c' | 'D' => 'd' | 'E' => 'e' | 'F' => 'f'
  | 'G' => 'g' | 'H' => 'h' | 'I' => 'i' | 'J' => 'j' | 'K' => 'k' | 'L' => 'l'
  | 'M' => 'm' | 'N' => 'n' | 'O' => 'o' | 'P' => 'p' | 'Q' => 'q' | 'R' => 'r'
  | 'S' => 's' | 'T' => 't' | 'U' => 'u' | 'V' => 'v' | 'W' => 'w' | 'X' => 'x'
  | 'Y' => 'y' | 'Z' => 'z' | other => other

/-- ASCII uppercasing of one character, as used by Python `str.capitalize`. -/
def pyUpperChar (c : Char) : Char :=
  match c with
  | 'a' => 'A' | 'b' => 'B' | 'c' => 'C' | 'd' => 'D' | 'e' => 'E' | 'f' => 'F'
  | 'g' => 'G' | 'h' => 'H' | 'i' => 'I' | 'j' => 'J' | 'k' => 'K' | 'l' => 'L'
  | 'm' => 'M' | 'n' => 'N' | 'o' => 'O' | 'p' => 'P' | 'q' => 'Q' | 'r' => 'R'
  | 's' => 'S' | 't' => 'T' | 'u' => 'U' | 'v' => 'V' | 'w' => 'W' | 'x' => 'X'
  | 'y' => 'Y' | 'z' => 'Z' | other => other

/-- The Python whitespace set (characters for which `str.isspace` holds and
which the regex class matches in unicode mode). -/
def isPySpace (c : Char) : Bool :=
  (9 ≤ c.toNat && c.toNat ≤ 13) || c.toNat = 32 || (28 ≤ c.toNat && c.toNat ≤ 31) ||
    c.toNat = 133 || c.toNat = 160 || c.toNat = 5760 ||
    (8192 ≤ c.toNat && c.toNat ≤ 8202) || c.toNat = 8232 || c.toNat = 8233 ||
    c.toNat = 8239 || c.toNat = 8287 || c.toNat = 12288

/-- ASCII decimal digits, the digit class of the regexes of the source. -/
def isDigitChar (c : Char) : Bool :=
  48 ≤ c.toNat && c.toNat ≤ 57

/-- Word characters of the regex word-boundary test, over ASCII. -/
def isWordChar (c : Char) : Bool :=
  c.isAlpha || isDigitChar c || c == '_'

/-- Characters accepted by the amount character class of the transaction
regex: digits and the decimal point. -/
def isAmtChar (c : Char) : Bool :=
  isDigitChar c || c == '.'

/-- Python line-boundary characters for `str.splitlines`. -/
def isLineBreak (c : Char) : Bool :=
  c == '\n' || c == '\r' || c.toNat = 11 || c.toNat = 12 ||
    (28 ≤ c.toNat && c.toNat ≤ 30) || c.toNat = 133 || c.toNat = 8232 || c.toNat = 8233

/-- `str.splitlines`: the accumulator holds the current line reversed; a
final empty segment after the last boundary is not emitted. -/
def pySplitlinesAux : List Char → List Char → List (List Char)
  | [], acc => if acc.isEmpty then [] else [acc.reverse]
  | '\r' :: '\n' :: rest, acc => acc.reverse :: pySplitlinesAux rest []
  | c :: rest, acc =>
    if isLineBreak c then acc.reverse :: pySplitlinesAux rest []
    else pySplitlinesAux rest (c :: acc)

/-- Python `str.splitlines` on a character list. -/
def pySplitlines (l : List Char) : List (List Char) :=
  pySplitlinesAux l []

/-- Python `str.strip()` (default whitespace stripping) on a character list. -/
def pyStrip (l : List Char) : List Char :=
  ((l.dropWhile isPySpace).reverse.dropWhile isPySpace).reverse

/-- Python substring membership `needle in hay`. -/
def listHasSub (needle : List Char) : List Char → Bool
  | [] => needle.isEmpty
  | c :: t => needle.isPrefixOf (c :: t) || listHasSub needle t

/-- Numeric value of a list of decimal digit characters (value of `int` on
an all-digit string; `0` on the empty list). -/
def digitsToNat (l : List Char) : ℕ :=
  l.foldl (fun a c => 10 * a + (c.toNat - 48)) 0

/-- Python `float` applied to a nonempty run of digits and dots, idealized
to an exact rational.  It fails (`ValueError`) when there is more than one
dot or no digit at all. -/
def pyFloat (l : List Char) : Option ℚ :=
  if l.count '.' ≤ 1 && l.any isDigitChar then
    some ((digitsToNat (l.takeWhile fun c => !(c == '.')) : ℚ) +
      (digitsToNat ((l.dropWhile fun c => !(c == '.')).drop 1) : ℚ) /
        10 ^ ((l.dropWhile fun c => !(c == '.')).drop 1).length)
  else none

/-- Round half to even at integer precision, the behavior of the Python
builtin `round` idealized over the rationals. -/
def roundHalfEven (q : ℚ) : ℤ :=
  if q - ⌊q⌋ < 1/2 then ⌊q⌋
  else if 1/2 < q - ⌊q⌋ then ⌊q⌋ + 1
  else if ⌊q⌋ % 2 = 0 then ⌊q⌋ else ⌊q⌋ + 1

/-- Python `round(q, 2)` idealized over the rationals. -/
def round2 (q : ℚ) : ℚ :=
  (roundHalfEven (q * 100) : ℚ) / 100

/-- The month names of the date regex alternation, lowercased: matching the
alternation case-insensitively is matching this set after `lower`. -/
def monthsLower : List (List Char) :=
  ["january".data, "february".data, "march".data, "april".data, "may".data,
   "june".data, "july".data, "august".data, "september".data, "october".data,
   "november".data, "december".data, "jan".data, "feb".data, "mar".data,
   "apr".data, "jun".data, "jul".data, "aug".data, "sep".data, "oct".data,
   "nov".data, "dec".data]

/-- The day alternation of the date regex on a full digit run:
matches exactly the strings 1-9, 01-09, 10-29, 30, 31. -/
def validDay : List Char → Bool
  | [c] => 49 ≤ c.toNat && c.toNat ≤ 57
  | [c₁, c₂] =>
    (c₁ == '0' && (49 ≤ c₂.toNat && c₂.toNat ≤ 57)) ||
      ((c₁ == '1' || c₁ == '2') && isDigitChar c₂) ||
      (c₁ == '3' && (c₂ == '0' || c₂ == '1'))
  | _ => false

/-- The anchored date regex of the source applied to a stripped line: a
1-31 day, whitespace, then a month name (full or 3-letter), matched
case-insensitively.  Returns the two capture groups as written. -/
def dateMatch (l : List Char) : Option (List Char × List Char) :=
  if validDay (l.takeWhile isDigitChar) then
    if ((l.dropWhile isDigitChar).takeWhile isPySpace).isEmpty then none
    else
      if monthsLower.contains
          (((l.dropWhile isDigitChar).dropWhile isPySpace).map pyLowerChar) then
        some (l.takeWhile isDigitChar, (l.dropWhile isDigitChar).dropWhile isPySpace)
      else none
  else none

/-- The transaction regex of the source applied to a stripped line: a
nonempty run of digits and dots, at least one whitespace character, then
the rest of the line as the description. -/
def amountMatch (l : List Char) : Option (List Char × List Char) :=
  if (l.takeWhile isAmtChar).isEmpty then none
  else
    if ((l.dropWhile isAmtChar).takeWhile isPySpace).isEmpty then none
    else some (l.takeWhile isAmtChar, (l.dropWhile isAmtChar).dropWhile isPySpace)

/-- One attempted match of the split regex at a fixed start position:
a word boundary, then the literal characters of the "for" token, at least
one whitespace character, a digit run, and a trailing word boundary.  The
captured number is returned. -/
def splitMatchAt (prevIsWord : Bool) (l : List Char) : Option ℕ :=
  if prevIsWord then none
  else
    match l with
    | 'f' :: 'o' :: 'r' :: rest =>
      if (rest.takeWhile isPySpace).isEmpty then none
      else
        if ((rest.dropWhile isPySpace).takeWhile isDigitChar).isEmpty then none
        else
          match (rest.dropWhile isPySpace).dropWhile isDigitChar with
          | [] => some (digitsToNat ((rest.dropWhile isPySpace).takeWhile isDigitChar))
          | c :: _ =>
            if isWordChar c then none
            else some (digitsToNat ((rest.dropWhile isPySpace).takeWhile isDigitChar))
    | _ => none

/-- Left-to-right scan of the split regex search, threading whether the
previous character is a word character (for the leading word boundary). -/
def splitSearchAux : Bool → List Char → Option ℕ
  | _, [] => none
  | prev, c :: rest =>
    match splitMatchAt prev (c :: rest) with
    | some n => some n
    | none => splitSearchAux (isWordChar c) rest

/-- The split-detection search of the source (run on the lowered
description): leftmost whole-word occurrence of the "for" token followed
by an integer, returning the captured integer. -/
def splitSearch (l : List Char) : Option ℕ :=
  splitSearchAux false l

/-- The ordered categorization rules of the source (`categorize_description`
in src/main.py), first match wins, over the lowered description. -/
def categorize_description (raw_desc : String) : String × String :=
  let dl := raw_desc.data.map pyLowerChar
  if listHasSub "child".data dl then ("child", "")
  else if listHasSub "dad".data dl then ("Dad", "Dad")
  else if ["hougang", "utilities", "internet"].any (fun x => listHasSub x.data dl) then
    if listHasSub "internet".data dl then ("Household", "Starhub") else ("Household", "")
  else if ["gift", "treat"].any (fun x => listHasSub x.data dl) then ("Gift/Treats", "")
  else if ["lunch", "dinner", "breakfast"].any (fun x => listHasSub x.data dl) then ("Food", "")
  else if ["taxi", "grab", "bus", "mrt"].any (fun x => listHasSub x.data dl) then ("Transport", "")
  else if listHasSub "tax".data dl then ("Tax", "IRAS")
  else if ["mobile", "bill", "chatgpt"].any (fun x => listHasSub x.data dl) then ("Bills", "")
  else if ["snacks", "drinks"].any (fun x => listHasSub x.data dl) then ("Leisure", "")
  else ("Others", "")

/-- The fixed year label of the source. -/
def YEAR : String := "2024"

/-- Python `str.capitalize`: first character uppercased, the rest lowered. -/
def pyCapitalize : List Char → List Char
  | [] => []
  | c :: r => pyUpperChar c :: r.map pyLowerChar

/-- The date label stored on a date-header match:
`f"{day_str} {month_str.capitalize()} {YEAR}"`. -/
def mkDateLabel (dayS monS : List Char) : String :=
  String.mk dayS ++ " " ++ String.mk (pyCapitalize monS) ++ " " ++ YEAR

/-- The output unit of the parser (one row of the report). -/
structure TransactionRecord where
  date : String
  category : String
  description : String
  outflow : ℚ
  payee : String
deriving DecidableEq, Repr

/-- The diagnostic events the parse pass emits to the logging collaborator. -/
inductive LogEvent where
  | debugDate
  | errorAmount
  | errorNoDate
  | debugSplit
deriving DecidableEq, Repr

/-- The state threaded through the line-processing loop of
`parse_raw_data`, together with the log events emitted so far. -/
structure PState where
  txs : List TransactionRecord
  datesFound : ℕ
  splitCount : ℕ
  current_date : Option String
  logs : List LogEvent
deriving DecidableEq, Repr

/-- The loop state at entry of `parse_raw_data`. -/
def initState : PState :=
  { txs := [], datesFound := 0, splitCount := 0, current_date := none, logs := [] }

/-- The first record of the split path: the personal portion. -/
def personalRecord (d : String) (desc : List Char) (amount : ℚ) (n : ℕ) : TransactionRecord :=
  { date := d, category := "Food", description := String.mk desc ++ " (personal)",
    outflow := round2 (amount * (1 / (n : ℚ))), payee := "" }

/-- The second record of the split path: the treat portion. -/
def treatRecord (d : String) (desc : List Char) (amount : ℚ) (n : ℕ) : TransactionRecord :=
  { date := d,
    category :=
      if listHasSub "child".data (desc.map pyLowerChar) && n == 2 then "child"
      else "Gift/Treats",
    description := String.mk desc ++ " (treat)",
    outflow := round2 (amount * (((n : ℚ) - 1) / (n : ℚ))), payee := "" }

/-- The single record of the normal (non-split) path. -/
def singleRecord (d : String) (desc : List Char) (amount : ℚ) : TransactionRecord :=
  { date := d, category := (categorize_description (String.mk desc)).1,
    description := String.mk desc, outflow := amount,
    payee := (categorize_description (String.mk desc)).2 }

/-- The body of the per-line processing of `parse_raw_data`, applied to the
already stripped line.  `Except.error ()` is the `ZeroDivisionError` the
split path raises when the captured integer is zero. -/
def processStripped (st : PState) (l : List Char) : Except Unit PState :=
  if l.isEmpty then .ok st
  else
    match dateMatch l with
    | some (dayS, monS) =>
      .ok { st with current_date := some (mkDateLabel dayS monS),
                    datesFound := st.datesFound + 1,
                    logs := st.logs ++ [LogEvent.debugDate] }
    | none =>
      match amountMatch l with
      | none => .ok st
      | some (amtS, desc) =>
        match pyFloat amtS with
        | none => .ok { st with logs := st.logs ++ [LogEvent.errorAmount] }
        | some amount =>
          match st.current_date with
          | none => .ok { st with logs := st.logs ++ [LogEvent.errorNoDate] }
          | some d =>
            match splitSearch (desc.map pyLowerChar) with
            | some n =>
              if n = 0 then .error ()
              else
                .ok { st with
                  splitCount := st.splitCount + 1,
                  logs := st.logs ++ [LogEvent.debugSplit],
                  txs := st.txs ++ [personalRecord d desc amount n, treatRecord d desc amount n] }
            | none =>
              .ok { st with txs := st.txs ++ [singleRecord d desc amount] }

/-- One iteration of the line loop of `parse_raw_data`: strip, then process. -/
def processLine (st : PState) (line : List Char) : Except Unit PState :=
  processStripped st (pyStrip line)

/-- The line loop of `parse_raw_data`. -/
def processLines : PState → List (List Char) → Except Unit PState
  | st, [] => .ok st
  | st, l :: rest =>
    match processLine st l with
    | .error e => .error e
    | .ok st' => processLines st' rest

/-- The parser of the source: returns the record list and the two counters
(dates found, transactions split), or the uncaught exception. -/
def parse_raw_data (raw : String) : Except Unit (List TransactionRecord × ℕ × ℕ) :=
  match processLines initState (pySplitlines raw.data) with
  | .error e => .error e
  | .ok st => .ok (st.txs, st.datesFound, st.splitCount)

/-- The ordered rule table of the specification: a list of
(predicate, result) entries over the lowered description, evaluated
first-match-wins with the catch-all ("Others", "") when nothing matches. -/
def firstMatch : List ((List Char → Bool) × (List Char → String × String)) → List Char → String × String
  | [], _ => ("Others", "")
  | (p, r) :: rest, dl => if p dl then r dl else firstMatch rest dl

/-- The nine rule entries of the specification, in priority order:
child, Dad, Household (payee Starhub when internet is present),
Gift/Treats, Food, Transport, Tax (payee IRAS), Bills, Leisure. -/
def ruleEntries : List ((List Char → Bool) × (List Char → String × String)) :=
  [(fun dl => listHasSub "child".data dl, fun _ => ("child", "")),
   (fun dl => listHasSub "dad".data dl, fun _ => ("Dad", "Dad")),
   (fun dl => listHasSub "hougang".data dl ||
      (listHasSub "utilities".data dl || listHasSub "internet".data dl),
    fun dl => if listHasSub "internet".data dl then ("Household", "Starhub")
      else ("Household", "")),
   (fun dl => listHasSub "gift".data dl || listHasSub "treat".data dl,
    fun _ => ("Gift/Treats", "")),
   (fun dl => listHasSub "lunch".data dl ||
      (listHasSub "dinner".data dl || listHasSub "breakfast".data dl),
    fun _ => ("Food", "")),
   (fun dl => listHasSub "taxi".data dl ||
      (listHasSub "grab".data dl || (listHasSub "bus".data dl || listHasSub "mrt".data dl)),
    fun _ => ("Transport", "")),
   (fun dl => listHasSub "tax".data dl, fun _ => ("Tax", "IRAS")),
   (fun dl => listHasSub "mobile".data dl ||
      (listHasSub "bill".data dl || listHasSub "chatgpt".data dl),
    fun _ => ("Bills", "")),
   (fun dl => listHasSub "snacks".data dl || listHasSub "drinks".data dl,
    fun _ => ("Leisure", ""))]

/-- The date label a stripped line contributes when it is a date-header,
`none` otherwise. -/
def headerLabelStripped (l : List Char) : Option String :=
  match dateMatch l with
  | some (dayS, monS) => some (mkDateLabel dayS monS)
  | none => none

/-- The date label a line contributes when it is a date-header, `none`
otherwise. -/
def headerLabel (line : List Char) : Option String :=
  headerLabelStripped (pyStrip line)

/-- Updating the active date with the contribution of one line. -/
def refreshDate (h old : Option String) : Option String :=
  match h with
  | some x => some x
  | none => old

/-- The date label in effect after a list of lines, starting from `acc`:
the label of the most recent date-header among them, if any. -/
def lastHeader (acc : Option String) : List (List Char) → Option String
  | [] => acc
  | l :: rest => lastHeader (refreshDate (headerLabel l) acc) rest

/-- A loop state with an active date, used to instantiate the per-line
theorems at concrete inputs. -/
def sampleState : PState :=
  { txs := [], datesFound := 1, splitCount := 0,
    current_date := some "1 Nov 2024", logs := [] }

/-- The record produced for the input "1 nov" then "5 lunch", used to
instantiate the whole-run theorems at a concrete input. -/
def sampleRecordLunch : TransactionRecord :=
  { date := "1 Nov 2024", category := "Food", description := "lunch",
    outflow := 5, payee := "" }

theorem abs_roundHalfEven_sub_le (q : ℚ) : |(roundHalfEven q : ℚ) - q| ≤ 1/2 := by
  have hfl : (⌊q⌋ : ℚ) ≤ q := Int.floor_le q
  have hfu : q < ⌊q⌋ + 1 := Int.lt_floor_add_one q
  unfold roundHalfEven
  split_ifs with h1 h2 h3 <;> rw [abs_le] <;> push_cast <;> constructor <;> linarith

theorem abs_round2_sub_le (q : ℚ) : |round2 q - q| ≤ 1/200 := by
  have h := abs_roundHalfEven_sub_le (q * 100)
  have heq : round2 q - q = ((roundHalfEven (q * 100) : ℚ) - q * 100) / 100 := by
    unfold round2; ring
  rw [heq, abs_div, show |(100 : ℚ)| = 100 by norm_num]
  linarith

theorem roundHalfEven_nonneg (q : ℚ) (hq : 0 ≤ q) : 0 ≤ roundHalfEven q := by
  have hfl : 0 ≤ ⌊q⌋ := Int.floor_nonneg.mpr hq
  unfold roundHalfEven
  split_ifs <;> omega

theorem round2_nonneg (q : ℚ) (hq : 0 ≤ q) : 0 ≤ round2 q := by
  unfold round2
  have h : (0 : ℚ) ≤ (roundHalfEven (q * 100) : ℚ) :=
    Int.cast_nonneg.mpr (roundHalfEven_nonneg (q * 100) (by positivity))
  exact div_nonneg h (by norm_num)

theorem digitsToNat_cast_nonneg (l : List Char) : (0 : ℚ) ≤ (digitsToNat l : ℚ) := by
  exact_mod_cast Nat.zero_le _

theorem pyFloat_nonneg (l : List Char) (q : ℚ) (h : pyFloat l = some q) : 0 ≤ q := by
  unfold pyFloat at h
  split_ifs at h with hc
  rw [Option.some.injEq] at h
  subst h
  positivity

example : dateMatch (pyStrip "  1 nov ".data) = some ("1".data, "nov".data) := by decide
example : dateMatch "32 nov".data = none := by decide
example : dateMatch "01 NOVEMBER".data = some ("01".data, "NOVEMBER".data) := by decide
example : amountMatch "8.8 child lunch for 2".data =
    some ("8.8".data, "child lunch for 2".data) := by decide
example : amountMatch "hello world".data = none := by decide
example : pyFloat "8.8".data = some (44/5) := by with_unfolding_all rfl
example : pyFloat "1.2.3".data = none := by decide
example : splitSearch "child lunch for 2".data = some 2 := by decide
example : splitSearch "lunch for 0".data = some 0 := by decide
example : splitSearch "before 2".data = none := by decide
example : categorize_description "child lunch" = ("child", "") := by decide
example : categorize_description "CHATGPT bill" = ("Bills", "") := by decide
example : categorize_description "xyz" = ("Others", "") := by decide
example : mkDateLabel "1".data "nOV".data = "1 Nov 2024" := by decide
example : parse_raw_data "1 nov\n   9 dinner" =
    .ok ([{ date := "1 Nov 2024", category := "Food", description := "dinner",
            outflow := 9, payee := "" }], 1, 0) := by with_unfolding_all rfl
example : parse_raw_data "1 nov\n5 lunch for 0" = .error () := by rfl

theorem dateMatch_nil : dateMatch [] = none := rfl

theorem amountMatch_nil : amountMatch [] = none := rfl

theorem isEmpty_false_of_dateMatch_some (l : List Char) (p : List Char × List Char)
    (h : dateMatch l = some p) : l.isEmpty = false := by
  cases l with
  | nil => rw [dateMatch_nil] at h; exact absurd h (by simp)
  | cons c t => rfl

theorem isEmpty_false_of_amountMatch_some (l : List Char) (p : List Char × List Char)
    (h : amountMatch l = some p) : l.isEmpty = false := by
  cases l with
  | nil => rw [amountMatch_nil] at h; exact absurd h (by simp)
  | cons c t => rfl

/-- Claim C1 (code_bug evidence).  The claim states that `parse_raw_data`
terminates normally on every input, in particular on a transaction line
whose description contains the whole-word token "for 0".  The code
divides the amount by the captured integer, so such a line raises an
uncaught `ZeroDivisionError`: on the input below the embedded parser
reaches the explicit division-by-zero error state instead of returning a
record list. -/
theorem parse_raw_data_for_zero_raises :
    parse_raw_data "1 nov\n5 lunch for 0" = .error () := rfl

/-- Claim C7.  `parse_raw_data` is deterministic: two runs on the same
input string yield the same record list and the same two counters; no
state carries across runs. -/
theorem parse_raw_data_deterministic (raw : String)
    (r₁ r₂ : Except Unit (List TransactionRecord × ℕ × ℕ))
    (h₁ : parse_raw_data raw = r₁) (h₂ : parse_raw_data raw = r₂) : r₁ = r₂ := by
  rw [← h₁, ← h₂]

theorem parse_raw_data_deterministic_witness :
    parse_raw_data "1 nov\n   9 dinner" = parse_raw_data "1 nov\n   9 dinner" :=
  parse_raw_data_deterministic "1 nov\n   9 dinner" _ _ rfl rfl

/-- Claim C9.  A non-empty trimmed line matching neither the date-header
regex nor the transaction regex is silently ignored: the state (records,
counters, active date, and log) is unchanged, no error is logged, and
processing continues with the remaining lines. -/
theorem unmatched_line_ignored (st : PState) (line : List Char) (rest : List (List Char))
    (hne : pyStrip line ≠ [])
    (hdm : dateMatch (pyStrip line) = none)
    (ham : amountMatch (pyStrip line) = none) :
    processLines st (line :: rest) = processLines st rest := by
  have hne2 : (pyStrip line).isEmpty = false := by
    cases h : pyStrip line with
    | nil => exact absurd h hne
    | cons c t => rfl
  simp [processLines, processLine, processStripped, hne2, hdm, ham]

theorem unmatched_line_ignored_witness :
    processLines sampleState ["hello world".data] = processLines sampleState [] :=
  unmatched_line_ignored sampleState "hello world".data [] (by decide) (by decide)
    (by decide)

/-- Claim C4.  A well-formed transaction line (the transaction regex
matches and the amount parses) that arrives while no date-header has been
seen produces no record: an error is logged and processing continues with
the remaining lines, the record list and counters unchanged. -/
theorem orphan_transaction_dropped (st : PState) (line : List Char) (rest : List (List Char))
    (amtS desc : List Char) (a : ℚ)
    (hnodate : st.current_date = none)
    (hdm : dateMatch (pyStrip line) = none)
    (ham : amountMatch (pyStrip line) = some (amtS, desc))
    (hfl : pyFloat amtS = some a) :
    processLines st (line :: rest) =
      processLines { st with logs := st.logs ++ [LogEvent.errorNoDate] } rest := by
  have hne2 : (pyStrip line).isEmpty = false :=
    isEmpty_false_of_amountMatch_some _ _ ham
  simp [processLines, processLine, processStripped, hne2, hdm, ham, hfl, hnodate]

theorem orphan_transaction_dropped_witness :
    processLines initState ["5 lunch".data] =
      processLines
        { txs := [], datesFound := 0, splitCount := 0, current_date := none,
          logs := [LogEvent.errorNoDate] } [] :=
  orphan_transaction_dropped initState "5 lunch".data [] "5".data "lunch".data 5
    rfl (by decide) (by decide) (by with_unfolding_all rfl)

/-- Claim C6.  A trimmed line matching the date-header pattern (day 1-31,
whitespace, month name full or abbreviated, case-insensitive) sets the
active date to "day month-capitalized-as-written fixed-year", increments
the date-header counter, emits no record, and processing continues with
the remaining lines. -/
theorem date_header_sets_date (st : PState) (line : List Char) (rest : List (List Char))
    (dayS monS : List Char)
    (hdm : dateMatch (pyStrip line) = some (dayS, monS)) :
    processLines st (line :: rest) =
      processLines { st with
        current_date := some (String.mk dayS ++ " " ++ String.mk (pyCapitalize monS) ++
          " " ++ YEAR),
        datesFound := st.datesFound + 1,
        logs := st.logs ++ [LogEvent.debugDate] } rest := by
  have hne2 : (pyStrip line).isEmpty = false :=
    isEmpty_false_of_dateMatch_some _ _ hdm
  simp [processLines, processLine, processStripped, hne2, hdm, mkDateLabel]

theorem date_header_sets_date_witness :
    processLines initState ["1 nov".data] =
      processLines
        { txs := [], datesFound := 1, splitCount := 0,
          current_date := some "1 Nov 2024", logs := [LogEvent.debugDate] } [] :=
  date_header_sets_date initState "1 nov".data [] "1".data "nov".data (by decide)

theorem categorize_description_fst_ne_empty (d : String) :
    (categorize_description d).1 ≠ "" := by
  simp only [categorize_description]
  split_ifs <;> decide

/-- Claim C5.  `categorize_description` is the first-match-wins evaluation
of the ordered rule list (child, Dad, Household with payee Starhub iff
internet is present, Gift/Treats, Food, Transport, Tax with payee IRAS,
Bills, Leisure) over case-insensitive substring tests, falling through to
("Others", "") when no rule matches; in particular a description
containing both "child" and "lunch" resolves to category "child". -/
theorem categorize_description_ordered_rules (d : String) :
    categorize_description d = firstMatch ruleEntries (d.data.map pyLowerChar) ∧
      (listHasSub "child".data (d.data.map pyLowerChar) = true ∧
        listHasSub "lunch".data (d.data.map pyLowerChar) = true →
        (categorize_description d).1 = "child") := by
  constructor
  · simp only [categorize_description, firstMatch, ruleEntries, List.any_cons,
      List.any_nil, Bool.or_false]
  · intro h
    simp [categorize_description, h.1]

theorem categorize_description_ordered_rules_witness :
    (categorize_description "child lunch" =
        firstMatch ruleEntries ("child lunch".data.map pyLowerChar)) ∧
      (categorize_description "child lunch").1 = "child" :=
  ⟨(categorize_description_ordered_rules "child lunch").1,
    (categorize_description_ordered_rules "child lunch").2 ⟨by decide, by decide⟩⟩

/-- Claim C2.  On a transaction line whose description the split search
matches with captured integer n, 1 ≤ n, exactly two records are emitted in
place of one, both carrying the current date; their outflows are
round(a/n, 2) and round(a*(n-1)/n, 2) and they sum to within 0.01 of the
parsed amount a. -/
theorem split_emits_two_records (st : PState) (line : List Char) (d : String)
    (amtS desc : List Char) (a : ℚ) (n : ℕ)
    (hdm : dateMatch (pyStrip line) = none)
    (ham : amountMatch (pyStrip line) = some (amtS, desc))
    (hfl : pyFloat amtS = some a)
    (hdate : st.current_date = some d)
    (hsp : splitSearch (desc.map pyLowerChar) = some n)
    (hn : 1 ≤ n) :
    ∃ ra rb : TransactionRecord,
      processLine st line = .ok { st with
        txs := st.txs ++ [ra, rb],
        splitCount := st.splitCount + 1,
        logs := st.logs ++ [LogEvent.debugSplit] } ∧
      ra.date = d ∧ rb.date = d ∧
      ra.outflow = round2 (a / (n : ℚ)) ∧
      rb.outflow = round2 (a * ((n : ℚ) - 1) / (n : ℚ)) ∧
      |ra.outflow + rb.outflow - a| ≤ 1/100 := by
  have hne2 : (pyStrip line).isEmpty = false :=
    isEmpty_false_of_amountMatch_some _ _ ham
  have hn0 : ¬(n = 0) := by omega
  have hnq : ((n : ℚ)) ≠ 0 := Nat.cast_ne_zero.mpr hn0
  have hsum : a * (1 / (n : ℚ)) + a * (((n : ℚ) - 1) / (n : ℚ)) = a := by
    field_simp
    ring
  refine ⟨personalRecord d desc a n, treatRecord d desc a n, ?_, rfl, rfl, ?_, ?_, ?_⟩
  · simp [processLine, processStripped, hne2, hdm, ham, hfl, hdate, hsp, hn0]
  · simp only [personalRecord]
    rw [mul_one_div]
  · simp only [treatRecord]
    rw [mul_div_assoc]
  · have h1 := abs_round2_sub_le (a * (1 / (n : ℚ)))
    have h2 := abs_round2_sub_le (a * (((n : ℚ) - 1) / (n : ℚ)))
    simp only [personalRecord, treatRecord]
    have hkey : round2 (a * (1 / (n : ℚ))) + round2 (a * (((n : ℚ) - 1) / (n : ℚ))) - a =
        (round2 (a * (1 / (n : ℚ))) - a * (1 / (n : ℚ))) +
          (round2 (a * (((n : ℚ) - 1) / (n : ℚ))) - a * (((n : ℚ) - 1) / (n : ℚ))) := by
      linarith
    rw [hkey]
    exact (abs_add _ _).trans (by linarith)

theorem split_emits_two_records_witness :
    ∃ ra rb : TransactionRecord,
      processLine sampleState "4.2 lunch for 2".data = .ok { sampleState with
        txs := sampleState.txs ++ [ra, rb],
        splitCount := sampleState.splitCount + 1,
        logs := sampleState.logs ++ [LogEvent.debugSplit] } ∧
      ra.date = "1 Nov 2024" ∧ rb.date = "1 Nov 2024" ∧
      ra.outflow = round2 ((21/5 : ℚ) / ((2 : ℕ) : ℚ)) ∧
      rb.outflow = round2 ((21/5 : ℚ) * (((2 : ℕ) : ℚ) - 1) / ((2 : ℕ) : ℚ)) ∧
      |ra.outflow + rb.outflow - (21/5 : ℚ)| ≤ 1/100 :=
  split_emits_two_records sampleState "4.2 lunch for 2".data "1 Nov 2024"
    "4.2".data "lunch for 2".data (21/5) 2 (by decide) (by decide)
    (by with_unfolding_all rfl) rfl (by decide) (by decide)

/-- Claim C3.  On the split path the first record is forced to category
"Food" with description original + " (personal)" and empty payee; the
second has description original + " (treat)", empty payee, and category
"child" exactly when the lowered description contains "child" and n = 2,
otherwise "Gift/Treats". -/
theorem split_record_shapes (st : PState) (line : List Char) (d : String)
    (amtS desc : List Char) (a : ℚ) (n : ℕ)
    (hdm : dateMatch (pyStrip line) = none)
    (ham : amountMatch (pyStrip line) = some (amtS, desc))
    (hfl : pyFloat amtS = some a)
    (hdate : st.current_date = some d)
    (hsp : splitSearch (desc.map pyLowerChar) = some n)
    (hn : 1 ≤ n) :
    ∃ ra rb : TransactionRecord,
      processLine st line = .ok { st with
        txs := st.txs ++ [ra, rb],
        splitCount := st.splitCount + 1,
        logs := st.logs ++ [LogEvent.debugSplit] } ∧
      ra.category = "Food" ∧
      ra.description = String.mk desc ++ " (personal)" ∧
      ra.payee = "" ∧
      rb.description = String.mk desc ++ " (treat)" ∧
      rb.payee = "" ∧
      (rb.category = "child" ↔
        listHasSub "child".data (desc.map pyLowerChar) = true ∧ n = 2) ∧
      (¬(listHasSub "child".data (desc.map pyLowerChar) = true ∧ n = 2) →
        rb.category = "Gift/Treats") := by
  have hne2 : (pyStrip line).isEmpty = false :=
    isEmpty_false_of_amountMatch_some _ _ ham
  have hn0 : ¬(n = 0) := by omega
  have hcond : (listHasSub "child".data (desc.map pyLowerChar) && n == 2) = true ↔
      (listHasSub "child".data (desc.map pyLowerChar) = true ∧ n = 2) := by
    simp
  refine ⟨personalRecord d desc a n, treatRecord d desc a n, ?_, rfl, rfl, rfl, rfl, rfl,
    ?_, ?_⟩
  · simp [processLine, processStripped, hne2, hdm, ham, hfl, hdate, hsp, hn0]
  · simp only [treatRecord]
    constructor
    · intro h
      split_ifs at h with hc
      · exact hcond.mp hc
      · exact absurd h (by decide)
    · intro h
      rw [if_pos (hcond.mpr h)]
  · intro h
    simp only [treatRecord]
    rw [if_neg (fun hc => h (hcond.mp hc))]

theorem split_record_shapes_witness :
    ∃ ra rb : TransactionRecord,
      processLine sampleState "8.8 child lunch for 2".data = .ok { sampleState with
        txs := sampleState.txs ++ [ra, rb],
        splitCount := sampleState.splitCount + 1,
        logs := sampleState.logs ++ [LogEvent.debugSplit] } ∧
      ra.category = "Food" ∧
      ra.description = String.mk "child lunch for 2".data ++ " (personal)" ∧
      ra.payee = "" ∧
      rb.description = String.mk "child lunch for 2".data ++ " (treat)" ∧
      rb.payee = "" ∧
      (rb.category = "child" ↔
        listHasSub "child".data ("child lunch for 2".data.map pyLowerChar) = true ∧
          (2 : ℕ) = 2) ∧
      (¬(listHasSub "child".data ("child lunch for 2".data.map pyLowerChar) = true ∧
          (2 : ℕ) = 2) →
        rb.category = "Gift/Treats") :=
  split_record_shapes sampleState "8.8 child lunch for 2".data "1 Nov 2024"
    "8.8".data "child lunch for 2".data (44/5) 2 (by decide) (by decide)
    (by with_unfolding_all rfl) rfl (by decide) (by decide)

theorem processStripped_ok_inv (st st₁ : PState) (l : List Char)
    (h : processStripped st l = .ok st₁) :
    st₁.current_date = refreshDate (headerLabelStripped l) st.current_date ∧
      (st₁.txs = st.txs ∨ ∃ new, st₁.txs = st.txs ++ new ∧
        ∃ d, st.current_date = some d ∧
          ∀ r ∈ new, r.date = d ∧ 0 ≤ r.outflow ∧ r.category ≠ "") := by
  simp only [processStripped] at h
  split at h
  · rename_i hemp
    injection h with h2
    subst h2
    have hl : l = [] := by
      cases l with
      | nil => rfl
      | cons a t => simp at hemp
    exact ⟨by simp [hl, headerLabelStripped, dateMatch_nil, refreshDate], Or.inl rfl⟩
  · split at h
    · rename_i dayS monS heq
      injection h with h2
      subst h2
      exact ⟨by simp [headerLabelStripped, heq, refreshDate], Or.inl rfl⟩
    · rename_i heqd
      split at h
      · injection h with h2
        subst h2
        exact ⟨by simp [headerLabelStripped, heqd, refreshDate], Or.inl rfl⟩
      · rename_i amtS desc heqa
        split at h
        · injection h with h2
          subst h2
          exact ⟨by simp [headerLabelStripped, heqd, refreshDate], Or.inl rfl⟩
        · rename_i amount heqf
          split at h
          · injection h with h2
            subst h2
            exact ⟨by simp [headerLabelStripped, heqd, refreshDate], Or.inl rfl⟩
          · rename_i d heqcd
            split at h
            · rename_i n heqs
              split at h
              · exact absurd h (by simp)
              · rename_i hn0
                injection h with h2
                subst h2
                have ha : 0 ≤ amount := pyFloat_nonneg _ _ heqf
                have hn1 : 1 ≤ n := Nat.one_le_iff_ne_zero.mpr hn0
                have hnq : (1 : ℚ) ≤ (n : ℚ) := by exact_mod_cast hn1
                refine ⟨by simp [headerLabelStripped, heqd, refreshDate],
                  Or.inr ⟨_, rfl, d, heqcd, ?_⟩⟩
                intro r hr
                simp only [List.mem_cons, List.not_mem_nil, or_false] at hr
                rcases hr with rfl | rfl
                · exact ⟨rfl,
                    round2_nonneg _ (mul_nonneg ha (one_div_nonneg.mpr (Nat.cast_nonneg n))),
                    by simp [personalRecord]⟩
                · refine ⟨rfl,
                    round2_nonneg _ (mul_nonneg ha (div_nonneg (by linarith) (Nat.cast_nonneg n))),
                    ?_⟩
                  simp only [treatRecord]
                  split_ifs <;> decide
            · rename_i heqs
              injection h with h2
              subst h2
              refine ⟨by simp [headerLabelStripped, heqd, refreshDate],
                Or.inr ⟨_, rfl, d, heqcd, ?_⟩⟩
              intro r hr
              simp only [List.mem_singleton] at hr
              subst hr
              exact ⟨rfl, pyFloat_nonneg _ _ heqf, categorize_description_fst_ne_empty _⟩

theorem processLine_ok_inv (st st₁ : PState) (line : List Char)
    (h : processLine st line = .ok st₁) :
    st₁.current_date = refreshDate (headerLabel line) st.current_date ∧
      (st₁.txs = st.txs ∨ ∃ new, st₁.txs = st.txs ++ new ∧
        ∃ d, st.current_date = some d ∧
          ∀ r ∈ new, r.date = d ∧ 0 ≤ r.outflow ∧ r.category ≠ "") :=
  processStripped_ok_inv st st₁ (pyStrip line) h

theorem processLines_ok_inv (L : List (List Char)) (st st₁ : PState)
    (h : processLines st L = .ok st₁) :
    ∀ r ∈ st₁.txs, r ∈ st.txs ∨ (0 ≤ r.outflow ∧ r.category ≠ "" ∧
      ∃ pre post, L = pre ++ post ∧ lastHeader st.current_date pre = some r.date) := by
  induction L generalizing st with
  | nil =>
    simp only [processLines] at h
    injection h with h2
    subst h2
    exact fun r hr => Or.inl hr
  | cons l rest ih =>
    simp only [processLines] at h
    cases hstep : processLine st l with
    | error e => rw [hstep] at h; exact absurd h (by simp)
    | ok st' =>
      rw [hstep] at h
      intro r hr
      obtain ⟨hdate, htxs⟩ := processLine_ok_inv st st' l hstep
      rcases ih st' h r hr with hmem | ⟨hout, hcat, pre', post', hsplit, hlast⟩
      · rcases htxs with heq | ⟨new, heq, d, hd, hprops⟩
        · rw [heq] at hmem
          exact Or.inl hmem
        · rw [heq, List.mem_append] at hmem
          rcases hmem with hmem | hmem
          · exact Or.inl hmem
          · obtain ⟨hrdate, hrout, hrcat⟩ := hprops r hmem
            refine Or.inr ⟨hrout, hrcat, [], l :: rest, rfl, ?_⟩
            rw [hrdate]
            exact hd
      · refine Or.inr ⟨hout, hcat, l :: pre', post', by simp [hsplit], ?_⟩
        have : lastHeader st.current_date (l :: pre') =
            lastHeader (refreshDate (headerLabel l) st.current_date) pre' := rfl
        rw [this, ← hdate]
        exact hlast

/-- Claim C8.  Every record returned by `parse_raw_data` has a date equal
to the label contributed by the most recent preceding date-header line (so
it is never missing), a never-empty category (the catch-all "Others"
covers the no-match case), and a non-negative outflow. -/
theorem records_wellformed (raw : String) (txs : List TransactionRecord) (dc sc : ℕ)
    (h : parse_raw_data raw = .ok (txs, dc, sc)) :
    ∀ r ∈ txs, 0 ≤ r.outflow ∧ r.category ≠ "" ∧
      ∃ pre post, pySplitlines raw.data = pre ++ post ∧
        lastHeader none pre = some r.date := by
  unfold parse_raw_data at h
  cases heq : processLines initState (pySplitlines raw.data) with
  | error e => rw [heq] at h; exact absurd h (by simp)
  | ok st' =>
    rw [heq] at h
    injection h with h2
    have htxs : txs = st'.txs := (congrArg Prod.fst h2).symm
    intro r hr
    rw [htxs] at hr
    rcases processLines_ok_inv (pySplitlines raw.data) initState st' heq r hr with
      hmem | ⟨hout, hcat, pre, post, hsplit, hlast⟩
    · exact absurd hmem (by simp [initState])
    · exact ⟨hout, hcat, pre, post, hsplit, hlast⟩

theorem records_wellformed_witness :
    0 ≤ sampleRecordLunch.outflow ∧ sampleRecordLunch.category ≠ "" ∧
      ∃ pre post, pySplitlines ("1 nov\n5 lunch").data = pre ++ post ∧
        lastHeader none pre = some sampleRecordLunch.date :=
  records_wellformed "1 nov\n5 lunch" [sampleRecordLunch] 1 0
    (by with_unfolding_all rfl) sampleRecordLunch (by simp)

theorem takeWhile_all (p : Char → Bool) (l : List Char) (h : ∀ x ∈ l, p x = true) :
    l.takeWhile p = l := by
  induction l with
  | nil => rfl
  | cons a t ih =>
    simp [List.takeWhile_cons, h a (by simp), ih fun x hx => h x (by simp [hx])]

theorem dropWhile_all (p : Char → Bool) (l : List Char) (h : ∀ x ∈ l, p x = true) :
    l.dropWhile p = [] := by
  induction l with
  | nil => rfl
  | cons a t ih =>
    simp [List.dropWhile_cons, h a (by simp), ih fun x hx => h x (by simp [hx])]

theorem takeWhile_append_stop (p : Char → Bool) (l m : List Char) (c : Char)
    (hl : ∀ x ∈ l, p x = true) (hc : p c = false) :
    (l ++ c :: m).takeWhile p = l := by
  induction l with
  | nil => simp [List.takeWhile_cons, hc]
  | cons a t ih =>
    simp [List.takeWhile_cons, hl a (by simp), ih fun x hx => hl x (by simp [hx])]

theorem dropWhile_append_stop (p : Char → Bool) (l m : List Char) (c : Char)
    (hl : ∀ x ∈ l, p x = true) (hc : p c = false) :
    (l ++ c :: m).dropWhile p = c :: m := by
  induction l with
  | nil => simp [List.dropWhile_cons, hc]
  | cons a t ih =>
    simp [List.dropWhile_cons, hl a (by simp), ih fun x hx => hl x (by simp [hx])]

theorem dropWhile_eq_self_of_head (p : Char → Bool) (l : List Char) (c : Char)
    (t : List Char) (hl : l = c :: t) (hc : p c = false) :
    l.dropWhile p = l := by
  subst hl
  simp [List.dropWhile_cons, hc]

theorem isPySpace_iff (c : Char) : isPySpace c = true ↔
    (9 ≤ c.toNat ∧ c.toNat ≤ 13) ∨ c.toNat = 32 ∨ (28 ≤ c.toNat ∧ c.toNat ≤ 31) ∨
      c.toNat = 133 ∨ c.toNat = 160 ∨ c.toNat = 5760 ∨
      (8192 ≤ c.toNat ∧ c.toNat ≤ 8202) ∨ c.toNat = 8232 ∨ c.toNat = 8233 ∨
      c.toNat = 8239 ∨ c.toNat = 8287 ∨ c.toNat = 12288 := by
  simp [isPySpace, Bool.or_eq_true, Bool.and_eq_true, decide_eq_true_eq]
  tauto

theorem isPySpace_eq_false_of_digit (c : Char) (h : isDigitChar c = true) :
    isPySpace c = false := by
  have hd : 48 ≤ c.toNat ∧ c.toNat ≤ 57 := by
    simpa [isDigitChar, Bool.and_eq_true, decide_eq_true_eq] using h
  cases hsp : isPySpace c with
  | false => rfl
  | true =>
    have := (isPySpace_iff c).mp hsp
    omega

theorem isAmtChar_of_digit (c : Char) (h : isDigitChar c = true) :
    isAmtChar c = true := by
  simp [isAmtChar, h]

theorem isDigitChar_eq_false_of_isAmtChar (c : Char) (h : isAmtChar c = false) :
    isDigitChar c = false := by
  cases hd : isDigitChar c with
  | false => rfl
  | true => simp [isAmtChar, hd] at h

theorem isPySpace_pyLowerChar (c : Char) : isPySpace (pyLowerChar c) = isPySpace c := by
  unfold pyLowerChar
  split <;> rfl

theorem isAmtChar_pyLowerChar (c : Char) : isAmtChar (pyLowerChar c) = isAmtChar c := by
  unfold pyLowerChar
  split <;> rfl

theorem months_ne_nil : ∀ s ∈ monthsLower, s ≠ [] := by decide

theorem months_chars : ∀ s ∈ monthsLower, ∀ c ∈ s,
    isPySpace c = false ∧ isAmtChar c = false := by decide

theorem months_no_split : ∀ s ∈ monthsLower, splitSearch s = none := by decide

theorem mem_month_chars (X : List Char) (hm : X.map pyLowerChar ∈ monthsLower) :
    X ≠ [] ∧ ∀ c ∈ X, isPySpace c = false ∧ isAmtChar c = false := by
  constructor
  · intro h
    subst h
    exact months_ne_nil [] (by simpa using hm) rfl
  · intro c hc
    have h2 := months_chars _ hm (pyLowerChar c) (List.mem_map_of_mem _ hc)
    rwa [isPySpace_pyLowerChar, isAmtChar_pyLowerChar] at h2

theorem validDay_bounds_single (c : Char) (h : validDay [c] = true) :
    1 ≤ digitsToNat [c] ∧ digitsToNat [c] ≤ 31 := by
  have hb : 49 ≤ c.toNat ∧ c.toNat ≤ 57 := by
    simpa [validDay, Bool.and_eq_true, decide_eq_true_eq] using h
  simp only [digitsToNat, List.foldl]
  omega

theorem validDay_bounds_pair (c₁ c₂ : Char) (h : validDay [c₁, c₂] = true) :
    1 ≤ digitsToNat [c₁, c₂] ∧ digitsToNat [c₁, c₂] ≤ 31 := by
  simp only [validDay, Bool.or_eq_true, Bool.and_eq_true, beq_iff_eq,
    decide_eq_true_eq, isDigitChar] at h
  simp only [digitsToNat, List.foldl]
  obtain (⟨h1, h2, h3⟩ | ⟨h1, h2, h3⟩) | ⟨h1, h2⟩ := h
  · have e1 : c₁.toNat = 48 := by subst h1; rfl
    omega
  · have e1 : c₁.toNat = 49 ∨ c₁.toNat = 50 := by
      rcases h1 with rfl | rfl
      · exact Or.inl rfl
      · exact Or.inr rfl
    omega
  · have e1 : c₁.toNat = 51 := by subst h1; rfl
    have e2 : c₂.toNat = 48 ∨ c₂.toNat = 49 := by
      rcases h2 with rfl | rfl
      · exact Or.inl rfl
      · exact Or.inr rfl
    omega

theorem validDay_bounds (ds : List Char) (h : validDay ds = true) :
    1 ≤ digitsToNat ds ∧ digitsToNat ds ≤ 31 := by
  rcases ds with _ | ⟨c₁, _ | ⟨c₂, _ | ⟨c₃, t⟩⟩⟩
  · simp [validDay] at h
  · exact validDay_bounds_single c₁ h
  · exact validDay_bounds_pair c₁ c₂ h
  · simp [validDay] at h

theorem pyFloat_digits (ds : List Char) (hne : ds ≠ [])
    (hdig : ds.all isDigitChar = true) :
    pyFloat ds = some ((digitsToNat ds : ℚ)) := by
  have hALL : ∀ x ∈ ds, isDigitChar x = true := List.all_eq_true.mp hdig
  have hnodot : ∀ x ∈ ds, (!(x == '.')) = true := by
    intro x hx
    cases hxe : x == '.' with
    | false => rfl
    | true =>
      have hx2 : x = '.' := beq_iff_eq.mp hxe
      subst hx2
      exact absurd (hALL _ hx) (by decide)
  have htw : ds.takeWhile (fun c => !(c == '.')) = ds := takeWhile_all _ _ hnodot
  have hdw : ds.dropWhile (fun c => !(c == '.')) = [] := dropWhile_all _ _ hnodot
  have hcount : ds.count '.' = 0 := by
    rw [List.count_eq_zero]
    intro hmem
    exact absurd (hALL '.' hmem) (by decide)
  have hany : ds.any isDigitChar = true := by
    cases ds with
    | nil => exact absurd rfl hne
    | cons c t => simp [List.any_cons, hALL c (by simp)]
  unfold pyFloat
  rw [if_pos (by simp [hcount, hany]), htw, hdw]
  norm_num [digitsToNat]

theorem pyStrip_digits_month (ds mon : List Char)
    (hds : ds ≠ []) (hdig : ds.all isDigitChar = true)
    (hmne : mon ≠ []) (hmch : ∀ c ∈ mon, isPySpace c = false) :
    pyStrip (ds ++ ' ' :: mon) = ds ++ ' ' :: mon := by
  obtain ⟨c, t, rfl⟩ : ∃ c t, ds = c :: t := by
    cases ds with
    | nil => exact absurd rfl hds
    | cons c t => exact ⟨c, t, rfl⟩
  have hcd : isDigitChar c = true := List.all_eq_true.mp hdig c (by simp)
  have hc : isPySpace c = false := isPySpace_eq_false_of_digit c hcd
  obtain ⟨mc, mt, hmrev⟩ : ∃ mc mt, mon.reverse = mc :: mt := by
    cases hr : mon.reverse with
    | nil => exact absurd (List.reverse_eq_nil_iff.mp hr) hmne
    | cons mc mt => exact ⟨mc, mt, rfl⟩
  have hmc : isPySpace mc = false := by
    apply hmch
    apply List.mem_reverse.mp
    rw [hmrev]
    simp
  unfold pyStrip
  have h1 : ((c :: t) ++ ' ' :: mon).dropWhile isPySpace = (c :: t) ++ ' ' :: mon := by
    rw [List.cons_append]
    exact dropWhile_eq_self_of_head _ _ c (t ++ ' ' :: mon) rfl hc
  rw [h1]
  have hrev : ((c :: t) ++ ' ' :: mon).reverse = mc :: (mt ++ ' ' :: (c :: t).reverse) := by
    rw [List.reverse_append, List.reverse_cons, hmrev]
    simp
  rw [hrev]
  rw [dropWhile_eq_self_of_head _ _ mc (mt ++ ' ' :: (c :: t).reverse) rfl hmc]
  rw [← hrev, List.reverse_reverse]

/-- Claim C10.  A line of the form digit-run, space, month-name whose
numeric value lies outside 1-31 fails the date-header test but matches the
transaction test: under an active date it yields exactly one record whose
outflow is that number and whose description is the month name as written,
categorized by the normal rules; the active date, the date counter, the
split counter, and the log are unchanged. -/
theorem out_of_range_day_line (st : PState) (rest : List (List Char)) (d : String)
    (n : ℕ) (ds : List Char) (mon : String)
    (hne : ds ≠ [])
    (hdig : ds.all isDigitChar = true)
    (hval : digitsToNat ds = n)
    (hout : ¬(1 ≤ n ∧ n ≤ 31))
    (hmon : mon.data.map pyLowerChar ∈ monthsLower)
    (hdate : st.current_date = some d) :
    processLines st ((ds ++ ' ' :: mon.data) :: rest) =
      processLines { st with txs := st.txs ++
        [{ date := d, category := (categorize_description mon).1, description := mon,
           outflow := (n : ℚ), payee := (categorize_description mon).2 }] } rest := by
  subst hval
  obtain ⟨hmne, hmch⟩ := mem_month_chars mon.data hmon
  have hALLd : ∀ x ∈ ds, isDigitChar x = true := List.all_eq_true.mp hdig
  have hALLa : ∀ x ∈ ds, isAmtChar x = true := fun x hx => isAmtChar_of_digit x (hALLd x hx)
  have hstrip : pyStrip (ds ++ ' ' :: mon.data) = ds ++ ' ' :: mon.data :=
    pyStrip_digits_month ds mon.data hne hdig hmne (fun c hc => (hmch c hc).1)
  have hemptyF : (ds ++ ' ' :: mon.data).isEmpty = false := by
    cases ds with
    | nil => exact absurd rfl hne
    | cons c t => rfl
  have htd : (ds ++ ' ' :: mon.data).takeWhile isDigitChar = ds :=
    takeWhile_append_stop _ _ _ _ hALLd (by decide)
  have hvd : validDay ds = false := by
    cases hv : validDay ds with
    | false => rfl
    | true => exact absurd (validDay_bounds ds hv) hout
  have hdm : dateMatch (ds ++ ' ' :: mon.data) = none := by
    unfold dateMatch
    rw [htd, hvd]
    simp
  have hta : (ds ++ ' ' :: mon.data).takeWhile isAmtChar = ds :=
    takeWhile_append_stop _ _ _ _ hALLa (by decide)
  have hda : (ds ++ ' ' :: mon.data).dropWhile isAmtChar = ' ' :: mon.data :=
    dropWhile_append_stop _ _ _ _ hALLa (by decide)
  have hdsE : ds.isEmpty = false := by
    cases ds with
    | nil => exact absurd rfl hne
    | cons c t => rfl
  obtain ⟨m0, mt0, hm0⟩ : ∃ m0 mt0, mon.data = m0 :: mt0 := by
    cases hm : mon.data with
    | nil => exact absurd hm hmne
    | cons m0 mt0 => exact ⟨m0, mt0, rfl⟩
  have htsp : ((' ' :: mon.data).takeWhile isPySpace).isEmpty = false := by
    simp [List.takeWhile_cons, show isPySpace ' ' = true from rfl]
  have hdsp : (' ' :: mon.data).dropWhile isPySpace = mon.data := by
    rw [List.dropWhile_cons]
    simp only [show isPySpace ' ' = true from rfl, if_true]
    exact dropWhile_eq_self_of_head _ _ m0 mt0 hm0 ((hmch m0 (by rw [hm0]; simp)).1)
  have ham : amountMatch (ds ++ ' ' :: mon.data) = some (ds, mon.data) := by
    unfold amountMatch
    rw [hta, hda, hdsp]
    simp [hdsE, htsp]
  have hfl := pyFloat_digits ds hne hdig
  have hsp : splitSearch (mon.data.map pyLowerChar) = none := months_no_split _ hmon
  have hmk : String.mk mon.data = mon := rfl
  simp [processLines, processLine, processStripped, hstrip, hemptyF, hdm, ham, hfl,
    hdate, hsp, singleRecord, hmk]

theorem out_of_range_day_line_witness :
    processLines sampleState (("32".data ++ ' ' :: "nov".data) :: []) =
      processLines { sampleState with txs := sampleState.txs ++
        [{ date := "1 Nov 2024", category := (categorize_description "nov").1,
           description := "nov", outflow := ((32 : ℕ) : ℚ),
           payee := (categorize_description "nov").2 }] } [] :=
  out_of_range_day_line sampleState [] "1 Nov 2024" 32 "32".data "nov"
    (by decide) (by decide) (by decide) (by decide) (by decide) rfl

end ExpenseCsv
